import Mathlib

/-!
Verification of the spadeforge repository's job-queue core against its
natural-language specification.

The Go sources are shallowly embedded: pure functions become Lean
functions, mutation of a `*job.Record` receiver becomes a function
returning the updated record (paired with an `Option String` for the
Go `error` result), wall-clock times become `Nat`, and `int` exit codes
become `Int`.  Filesystem effects are modelled as explicit micro-step
traces over a map from paths to file contents.
-/

set_option maxRecDepth 4096

/-! ## Job record state machine
    (src/internal/spadeloader/job/job.go and src/internal/job: the two
    copies have identical logic; the only difference is the generic
    error message in MarkFailed, "flash failed" vs "build failed",
    which is passed as a parameter here.) -/

inductive JState where
  | queued
  | running
  | succeeded
  | failed
deriving DecidableEq, Repr

def JState.str : JState → String
  | .queued => "QUEUED"
  | .running => "RUNNING"
  | .succeeded => "SUCCEEDED"
  | .failed => "FAILED"

/-- The persisted job record.  Instance-specific payload fields
(board, design name, bitstream metadata / manifest) are carried
opaquely; `failureKind`/`failureSummary` exist only in the spadeforge
variant and stay empty in the spadeloader variant. -/
structure Record where
  id : String
  state : JState
  message : String := ""
  error : String := ""
  currentStep : String := ""
  heartbeatAt : Option Nat := none
  createdAt : Nat
  updatedAt : Nat
  startedAt : Option Nat := none
  finishedAt : Option Nat := none
  exitCode : Option Int := none
  failureKind : String := ""
  failureSummary : String := ""
  board : String := ""
  designName : String := ""
  bitstreamName : String := ""
  bitstreamSHA256 : String := ""
  bitstreamSizeBytes : Int := 0
deriving DecidableEq, Repr

/-- job.New: fresh QUEUED record. -/
def Record.new (id : String) (board designName bitstreamName sha : String)
    (size : Int) (now : Nat) : Record :=
  { id := id
    state := .queued
    createdAt := now
    updatedAt := now
    board := board
    designName := designName
    bitstreamName := bitstreamName
    bitstreamSHA256 := sha
    bitstreamSizeBytes := size }

/-- isValidTransition from job.go. -/
def isValidTransition : JState → JState → Bool
  | from_, to_ =>
    if from_ = to_ then true
    else match from_ with
      | .queued => to_ = .running || to_ = .failed
      | .running => to_ = .succeeded || to_ = .failed
      | .succeeded => false
      | .failed => false

/-- Record.Transition: Go mutates the receiver and returns an error;
here the result is the (possibly unchanged) record plus the error. -/
def Record.transition (r : Record) (next : JState) (now : Nat) (message : String) :
    Record × Option String :=
  if ¬ isValidTransition r.state next then
    (r, some ("invalid transition " ++ r.state.str ++ " -> " ++ next.str))
  else
    let r := { r with state := next, updatedAt := now, message := message }
    let r := if next = .running then
        { r with startedAt := some now, finishedAt := none, exitCode := none,
                 error := "", heartbeatAt := some now }
      else r
    let r := if next = .succeeded ∨ next = .failed then
        { r with finishedAt := some now, heartbeatAt := some now }
      else r
    (r, none)

/-- Record.MarkFailed.  `generic` is the synthesized error text used
when `err` is nil ("flash failed" in spadeloader, "build failed" in
spadeforge). -/
def Record.markFailedWith (generic : String) (r : Record) (now : Nat)
    (message : String) (err : Option String) (exitCode : Int) :
    Record × Option String :=
  let errText := err.getD generic
  if r.state ≠ .running ∧ r.state ≠ .queued then
    (r, some ("invalid state for failure: " ++ r.state.str))
  else
    let (r, trErr) :=
      if r.state ≠ .failed then r.transition .failed now message
      else (r, none)
    match trErr with
    | some e => (r, some e)
    | none => ({ r with error := errText, exitCode := some exitCode }, none)

def Record.markFailed (r : Record) (now : Nat) (message : String)
    (err : Option String) (exitCode : Int) : Record × Option String :=
  Record.markFailedWith "flash failed" r now message err exitCode

/-- Record.MarkSucceeded. -/
def Record.markSucceeded (r : Record) (now : Nat) (message : String)
    (exitCode : Int) : Record × Option String :=
  if r.state ≠ .running then
    (r, some ("invalid state for success: " ++ r.state.str))
  else
    match r.transition .succeeded now message with
    | (r, some e) => (r, some e)
    | (r, none) => ({ r with error := "", exitCode := some exitCode }, none)

/-- Record.Terminal. -/
def Record.terminal (r : Record) : Bool :=
  r.state = .succeeded || r.state = .failed

/-! ## Claim C6 — Record.MarkFailed -/

/-- C6 counterexample input: a terminal (SUCCEEDED) record. -/
def c6Rec : Record :=
  { Record.new "j1" "alchitry_au" "Blink" "d.bit" "sha" 8 1 with
      state := .succeeded, exitCode := some 0, finishedAt := some 3 }

/-- C6: the claim says MarkFailed called in a non-RUNNING state "attempts
the FAILED transition but still writes the failure fields"; on a
SUCCEEDED record the code returns early with an error and writes
nothing: the record is returned unchanged, its `error` field does not
become the supplied error text and its exit code is not overwritten. -/
theorem C6_counterexample :
    (c6Rec.markFailed 9 "boom message" (some "boom") 3).1 = c6Rec
      ∧ (c6Rec.markFailed 9 "boom message" (some "boom") 3).2.isSome
      ∧ (c6Rec.markFailed 9 "boom message" (some "boom") 3).1.error ≠ "boom"
      ∧ (c6Rec.markFailed 9 "boom message" (some "boom") 3).1.exitCode ≠ some 3 := by
  decide

/-- C6 (amended): MarkFailed requires RUNNING or QUEUED and synthesizes
a generic error when `err` is nil; from RUNNING or QUEUED it performs
the FAILED transition and writes the failure fields; from a terminal
state (SUCCEEDED or FAILED) it returns an error and leaves the record
entirely unchanged — no failure fields are written. -/
theorem C6_markFailed (r : Record) (now : Nat) (msg : String)
    (err : Option String) (exit : Int) :
    (r.state = .running ∨ r.state = .queued →
        (r.markFailed now msg err exit).2 = none
          ∧ (r.markFailed now msg err exit).1.state = .failed
          ∧ (r.markFailed now msg err exit).1.error = err.getD "flash failed"
          ∧ (r.markFailed now msg err exit).1.exitCode = some exit
          ∧ (r.markFailed now msg err exit).1.finishedAt = some now)
      ∧ (r.state = .succeeded ∨ r.state = .failed →
          (r.markFailed now msg err exit).1 = r
            ∧ (r.markFailed now msg err exit).2
                = some ("invalid state for failure: " ++ r.state.str)) := by
  obtain ⟨id, st, _⟩ := r
  cases st <;>
    simp [Record.markFailed, Record.markFailedWith, Record.transition,
      isValidTransition, JState.str]

/-- C6 witness: the amended theorem applied to a concrete RUNNING record. -/
theorem C6_markFailed_witness :
    letI r : Record := { Record.new "j2" "b" "d" "x.bit" "s" 1 1 with
        state := .running, startedAt := some 2 }
    (r.markFailed 5 "failed" none 1).1.state = .failed
      ∧ (r.markFailed 5 "failed" none 1).1.error = "flash failed" := by
  have h := C6_markFailed
    { Record.new "j2" "b" "d" "x.bit" "s" 1 1 with state := .running, startedAt := some 2 }
    5 "failed" none 1
  have h2 := h.1 (Or.inl rfl)
  exact ⟨h2.2.1, by rw [h2.2.2.1]; rfl⟩

/-! ## Claim C1 — Store.Save write pattern
    (src/internal/store/store.go 63–76 and src/unnamed/part_021 72–85:
    both serialize the record and call os.WriteFile on the state path;
    neither writes a sibling temp file nor renames.)

    The filesystem is a map from paths to contents; os.WriteFile with
    O_CREATE|O_WRONLY|O_TRUNC is two observable micro-steps: a truncate
    (the file exists and is empty) followed by the data write.  A
    rename is a single atomic micro-step.  A concurrent reader may run
    between any two micro-steps. -/

def Fs : Type := String → Option String

inductive FsOp where
  | trunc (path : String)
  | write (path : String) (data : String)
  | rename (src dst : String)
deriving DecidableEq, Repr

def FsOp.isRename : FsOp → Bool
  | .rename _ _ => true
  | _ => false

def Fs.apply (fs : Fs) : FsOp → Fs
  | .trunc p => fun q => if q = p then some "" else fs q
  | .write p d => fun q => if q = p then some ((fs p).getD "" ++ d) else fs q
  | .rename s d => fun q => if q = d then fs s else if q = s then none else fs q

def Fs.applyAll (fs : Fs) (ops : List FsOp) : Fs := ops.foldl Fs.apply fs

/-- filepath.Join for the slash-separated paths used by the store. -/
def pathJoin (a b : String) : String := a ++ "/" ++ b

def jobsDir (baseDir : String) : String := pathJoin baseDir "jobs"

def jobDir (baseDir jobID : String) : String := pathJoin (jobsDir baseDir) jobID

def statePath (baseDir jobID : String) : String :=
  pathJoin (jobDir baseDir jobID) "state.json"

/-- json.MarshalIndent of the record, abridged to a representative
JSON document (the exact JSON text is irrelevant to the write-pattern
claim; what matters is that Save writes this single string). -/
def marshalRecord (r : Record) : String :=
  "\x7b\n  \"id\": \"" ++ r.id ++ "\",\n  \"state\": \"" ++ r.state.str
    ++ "\",\n  \"message\": \"" ++ r.message ++ "\",\n  \"created_at\": "
    ++ toString r.createdAt ++ ",\n  \"updated_at\": " ++ toString r.updatedAt ++ "\n\x7d"

/-- os.WriteFile(path, raw, 0o644): truncate then write, in place. -/
def writeFileOps (path raw : String) : List FsOp :=
  [.trunc path, .write path raw]

/-- Store.Save: marshal the record and os.WriteFile it onto the state
path.  There is no temp file and no rename. -/
def saveOps (baseDir : String) (r : Record) : List FsOp :=
  writeFileOps (statePath baseDir r.id) (marshalRecord r)

/-- Store.Load reads the state path. -/
def loadRaw (fs : Fs) (baseDir jobID : String) : Option String :=
  fs (statePath baseDir jobID)

def c1Rec : Record := Record.new "deadbeef" "b" "d" "x.bit" "sha" 4 10

def c1Fs : Fs := fun q =>
  if q = statePath "/base" "deadbeef" then some "OLDSTATE" else none

/-- C1 counterexample: Save contains no rename micro-step, and a reader
running between Save's truncate and its write observes an empty state
file — neither the old contents nor the new contents, i.e. a torn
state.  This refutes "writes the JSON to a sibling temp file and
renames it into place, so that Load never observes a torn state file". -/
theorem C1_counterexample :
    ((saveOps "/base" c1Rec).all fun op => ¬ op.isRename)
      ∧ loadRaw (c1Fs.applyAll ((saveOps "/base" c1Rec).take 1)) "/base" "deadbeef" = some ""
      ∧ loadRaw c1Fs "/base" "deadbeef" = some "OLDSTATE"
      ∧ marshalRecord c1Rec ≠ "" := by
  refine ⟨by decide, ?_, ?_, by decide⟩ <;>
    simp [Fs.applyAll, Fs.apply, saveOps, writeFileOps, loadRaw, c1Fs, c1Rec,
      Record.new, statePath, jobDir, jobsDir, pathJoin]

/-- C1 (amended): Save persists state.json by truncating and rewriting
the file in place (os.WriteFile); it uses no temp file and no rename,
so a reader between the truncate and the write observes an empty file;
once Save completes, Load returns exactly the saved record's JSON. -/
theorem C1_save (baseDir : String) (r : Record) (fs : Fs) :
    loadRaw (fs.applyAll (saveOps baseDir r)) baseDir r.id = some (marshalRecord r)
      ∧ ((saveOps baseDir r).all fun op => ¬ op.isRename)
      ∧ loadRaw (fs.applyAll ((saveOps baseDir r).take 1)) baseDir r.id = some "" := by
  refine ⟨?_, by simp [saveOps, writeFileOps, FsOp.isRename], ?_⟩ <;>
    simp [Fs.applyAll, Fs.apply, saveOps, writeFileOps, loadRaw]

/-! ## Claim C7 — Store.LoadAll
    (src/internal/store/store.go 90–114 and src/unnamed/part_021
    99–123, identical.)  The jobs directory listing is a list of
    entries; loading a job's state.json is a function from the job
    name to `Except` (Go: `(*job.Record, error)`). -/

structure DirEntry where
  name : String
  isDir : Bool
deriving DecidableEq, Repr

/-- The record-collection loop of LoadAll: non-directories are
skipped; a Load error aborts the whole call with
`load job "<name>": <err>`. -/
def collectRecords (entries : List DirEntry) (load : String → Except String Record) :
    Except String (List Record) :=
  match entries with
  | [] => .ok []
  | e :: rest =>
    if ¬ e.isDir then collectRecords rest load
    else
      match load e.name with
      | .error err => .error ("load job \"" ++ e.name ++ "\": " ++ err)
      | .ok rec =>
        match collectRecords rest load with
        | .error err => .error err
        | .ok recs => .ok (rec :: recs)

/-- Insertion sort on `created_at`, modelling the
`sort.Slice(records, CreatedAt.Before)` call (the order among records
with equal `created_at` is unspecified in Go's unstable sort; the
model puts later list elements after earlier ones on ties). -/
def insertByCreated (r : Record) : List Record → List Record
  | [] => [r]
  | x :: xs =>
    if r.createdAt ≤ x.createdAt then r :: x :: xs else x :: insertByCreated r xs

def sortByCreated (l : List Record) : List Record := l.foldr insertByCreated []

/-- Store.LoadAll: collect records of job directories, then sort by
`created_at` ascending. -/
def loadAllRecords (entries : List DirEntry) (load : String → Except String Record) :
    Except String (List Record) :=
  match collectRecords entries load with
  | .error err => .error err
  | .ok recs => .ok (sortByCreated recs)

lemma insertByCreated_perm (r : Record) (l : List Record) :
    (insertByCreated r l).Perm (r :: l) := by
  induction l with
  | nil => simp [insertByCreated]
  | cons x xs ih =>
    by_cases hle : r.createdAt ≤ x.createdAt
    · rw [insertByCreated, if_pos hle]
    · rw [insertByCreated, if_neg hle]
      exact List.Perm.trans (List.Perm.cons x ih) (List.Perm.swap r x xs)

lemma insertByCreated_sorted (r : Record) (l : List Record)
    (h : l.Pairwise fun a b => a.createdAt ≤ b.createdAt) :
    (insertByCreated r l).Pairwise fun a b => a.createdAt ≤ b.createdAt := by
  induction l with
  | nil => simp [insertByCreated]
  | cons x xs ih =>
    rw [List.pairwise_cons] at h
    by_cases hle : r.createdAt ≤ x.createdAt
    · rw [insertByCreated, if_pos hle]
      refine List.pairwise_cons.mpr ⟨?_, List.pairwise_cons.mpr ⟨h.1, h.2⟩⟩
      intro b hb
      rcases List.mem_cons.mp hb with hb | hb
      · exact hb ▸ hle
      · exact le_trans hle (h.1 b hb)
    · rw [insertByCreated, if_neg hle]
      refine List.pairwise_cons.mpr ⟨?_, ih h.2⟩
      intro b hb
      have hb' : b ∈ r :: xs := (insertByCreated_perm r xs).mem_iff.mp hb
      rcases List.mem_cons.mp hb' with hb' | hb'
      · exact hb' ▸ le_of_not_le hle
      · exact h.1 b hb'

lemma sortByCreated_sorted (l : List Record) :
    (sortByCreated l).Pairwise fun a b => a.createdAt ≤ b.createdAt := by
  induction l with
  | nil => simp [sortByCreated]
  | cons x xs ih => exact insertByCreated_sorted x _ ih

lemma sortByCreated_perm (l : List Record) : (sortByCreated l).Perm l := by
  induction l with
  | nil => simp [sortByCreated]
  | cons x xs ih =>
    exact List.Perm.trans (insertByCreated_perm x (sortByCreated xs))
      (List.Perm.cons x ih)

lemma collectRecords_error_of_bad (entries : List DirEntry)
    (load : String → Except String Record) (e : DirEntry)
    (hmem : e ∈ entries) (hdir : e.isDir) (hbad : ∃ err, load e.name = .error err) :
    ∃ msg, collectRecords entries load = .error msg := by
  induction entries with
  | nil => exact absurd hmem (List.not_mem_nil e)
  | cons a rest ih =>
    rcases List.mem_cons.mp hmem with rfl | hmem'
    · obtain ⟨err, herr⟩ := hbad
      refine ⟨"load job \"" ++ e.name ++ "\": " ++ err, ?_⟩
      rw [collectRecords, if_neg (by simp [hdir]), herr]
    · by_cases hadir : a.isDir
      · cases hl : load a.name with
        | error err =>
          exact ⟨_, by rw [collectRecords, if_neg (by simp [hadir]), hl]⟩
        | ok rec =>
          obtain ⟨msg, hmsg⟩ := ih hmem'
          exact ⟨msg, by rw [collectRecords, if_neg (by simp [hadir]), hl, hmsg]⟩
      · obtain ⟨msg, hmsg⟩ := ih hmem'
        exact ⟨msg, by rw [collectRecords, if_pos (by simp [hadir])]; exact hmsg⟩

/-- C7 counterexample: a jobs directory containing one job directory
without a loadable state.json.  LoadAll does not skip it — it fails
with an error, refuting "such directories are skipped, with a log
message". -/
theorem C7_counterexample :
    loadAllRecords [⟨"broken", true⟩]
        (fun _ => .error "open state.json: no such file or directory")
      = .error "load job \"broken\": open state.json: no such file or directory" := by
  rfl

/-- C7 (amended): LoadAll skips non-directory entries, but fails with
an error as soon as any job directory's state.json cannot be loaded
(a job directory without state.json is not tolerated); when every job
directory loads, it returns exactly the collected records (as a
permutation) sorted by `created_at` ascending. -/
theorem C7_loadAll (entries : List DirEntry) (load : String → Except String Record) :
    (∀ recs, loadAllRecords entries load = .ok recs →
        recs.Pairwise (fun a b => a.createdAt ≤ b.createdAt)
          ∧ ∃ raw, collectRecords entries load = .ok raw ∧ recs.Perm raw)
      ∧ (∀ e ∈ entries, e.isDir → ∀ err, load e.name = .error err →
          ∃ msg, loadAllRecords entries load = .error msg) := by
  constructor
  · intro recs h
    rw [loadAllRecords] at h
    cases hc : collectRecords entries load with
    | error err => rw [hc] at h; cases h
    | ok raw =>
      rw [hc] at h
      have hrecs : recs = sortByCreated raw := by
        cases h; rfl
      subst hrecs
      exact ⟨sortByCreated_sorted raw, raw, rfl, sortByCreated_perm raw⟩
  · intro e hmem hdir err herr
    obtain ⟨msg, hmsg⟩ :=
      collectRecords_error_of_bad entries load e hmem hdir ⟨err, herr⟩
    exact ⟨msg, by rw [loadAllRecords, hmsg]⟩

/-- C7 witness: apply the amended theorem to a concrete two-entry
directory listing (one real job directory, one stray file). -/
theorem C7_loadAll_witness :
    (loadAllRecords [⟨"j1", true⟩, ⟨"stray.txt", false⟩]
          (fun n => .ok (Record.new n "b" "d" "x.bit" "s" 1 3))
        = .ok [Record.new "j1" "b" "d" "x.bit" "s" 1 3])
      ∧ [Record.new "j1" "b" "d" "x.bit" "s" 1 3].Pairwise
          (fun a b => a.createdAt ≤ b.createdAt) := by
  have h := (C7_loadAll [⟨"j1", true⟩, ⟨"stray.txt", false⟩]
      (fun n => .ok (Record.new n "b" "d" "x.bit" "s" 1 3))).1
      [Record.new "j1" "b" "d" "x.bit" "s" 1 3] (by rfl)
  exact ⟨by rfl, h.1⟩

/-! ## Claim C5 — recovery on Start
    Three recoverJobs implementations are cited:
    * src/internal/spadeloader/queue/logs.go 179–207 (spadeloader),
    * src/unnamed/part_015 157–187 (spadeforge event-aware manager),
    * src/internal/queue/manager.go 147–173 (spadeforge manager). -/

/-- The RUNNING branch of recoverJobs in
src/internal/spadeloader/queue/logs.go: state→QUEUED, message
"requeued after restart", error/current_step cleared, started_at,
finished_at, heartbeat_at, exit_code cleared. -/
def recoverRunningLoader (rec : Record) (now : Nat) : Record :=
  { rec with
      state := .queued
      updatedAt := now
      message := "requeued after restart"
      error := ""
      currentStep := ""
      startedAt := none
      finishedAt := none
      heartbeatAt := none
      exitCode := none }

/-- The RUNNING branch of recoverJobs in src/unnamed/part_015: as the
spadeloader version, and additionally clears failure_kind and
failure_summary. -/
def recoverRunningForgeEvents (rec : Record) (now : Nat) : Record :=
  { rec with
      state := .queued
      updatedAt := now
      message := "requeued after restart"
      error := ""
      failureKind := ""
      failureSummary := ""
      currentStep := ""
      startedAt := none
      finishedAt := none
      heartbeatAt := none
      exitCode := none }

/-- The RUNNING branch of recoverJobs in
src/internal/queue/manager.go: clears error, started_at, finished_at
and exit_code — but does NOT touch heartbeat_at or current_step. -/
def recoverRunningForge (rec : Record) (now : Nat) : Record :=
  { rec with
      state := .queued
      updatedAt := now
      message := "requeued after restart"
      error := ""
      startedAt := none
      finishedAt := none
      exitCode := none }

/-- recoverJobs over the loaded records (spadeloader version; the
per-record rewrite is the parameter).  Returns the post-recovery
records together with the ids pushed onto the queue channel, in
order. -/
def recoverJobs (rewrite : Record → Nat → Record) (recs : List Record) (now : Nat) :
    List Record × List String :=
  recs.foldl
    (fun acc rec =>
      match rec.state with
      | .queued => (acc.1 ++ [rec], acc.2 ++ [rec.id])
      | .running => (acc.1 ++ [rewrite rec now], acc.2 ++ [rec.id])
      | _ => (acc.1 ++ [rec], acc.2))
    ([], [])

/-- C5 counterexample input: a RUNNING record with a live heartbeat
and a current step, as left behind by a crash mid-build. -/
def c5Rec : Record :=
  { Record.new "j5" "b" "d" "x.bit" "s" 1 2 with
      state := .running, startedAt := some 4, heartbeatAt := some 5,
      currentStep := "synth", message := "build started" }

/-- C5 counterexample: the spadeforge manager's recovery
(src/internal/queue/manager.go 147–173) rewrites a RUNNING record to
QUEUED but leaves `heartbeat_at` and `current_step` set, refuting
"with started_at, finished_at, heartbeat_at, exit_code and
current_step all cleared" for that cited implementation. -/
theorem C5_counterexample :
    (recoverRunningForge c5Rec 9).state = .queued
      ∧ (recoverRunningForge c5Rec 9).heartbeatAt = some 5
      ∧ (recoverRunningForge c5Rec 9).currentStep = "synth" := by
  decide

/-- C5 (amended): during recovery, every RUNNING record is rewritten
to QUEUED with message "requeued after restart" and re-enqueued; the
spadeloader recovery (and the event-aware spadeforge manager) clears
started_at, finished_at, heartbeat_at, exit_code and current_step,
while the spadeforge manager of src/internal/queue/manager.go clears
started_at, finished_at and exit_code but retains heartbeat_at and
current_step.  QUEUED records are re-enqueued unchanged and terminal
records are left as-is and not enqueued. -/
theorem C5_recovery (rec : Record) (now : Nat) :
    (rec.state = .running →
        (recoverRunningLoader rec now).state = .queued
          ∧ (recoverRunningLoader rec now).message = "requeued after restart"
          ∧ (recoverRunningLoader rec now).startedAt = none
          ∧ (recoverRunningLoader rec now).finishedAt = none
          ∧ (recoverRunningLoader rec now).heartbeatAt = none
          ∧ (recoverRunningLoader rec now).exitCode = none
          ∧ (recoverRunningLoader rec now).currentStep = ""
          ∧ (recoverRunningForge rec now).state = .queued
          ∧ (recoverRunningForge rec now).message = "requeued after restart"
          ∧ (recoverRunningForge rec now).startedAt = none
          ∧ (recoverRunningForge rec now).finishedAt = none
          ∧ (recoverRunningForge rec now).exitCode = none
          ∧ (recoverRunningForge rec now).heartbeatAt = rec.heartbeatAt
          ∧ (recoverRunningForge rec now).currentStep = rec.currentStep
          ∧ recoverJobs recoverRunningLoader [rec] now
              = ([recoverRunningLoader rec now], [rec.id]))
      ∧ (rec.state = .queued →
          recoverJobs recoverRunningLoader [rec] now = ([rec], [rec.id]))
      ∧ (rec.terminal →
          recoverJobs recoverRunningLoader [rec] now = ([rec], [])) := by
  refine ⟨fun h => ?_, fun h => ?_, fun h => ?_⟩
  · simp [recoverRunningLoader, recoverRunningForge, recoverJobs, h]
  · simp [recoverJobs, h]
  · have : rec.state = .succeeded ∨ rec.state = .failed := by
      rcases rec with ⟨_, st, _⟩
      cases st <;> simp_all [Record.terminal]
    rcases this with h' | h' <;> simp [recoverJobs, h']

/-- C5 witness: the amended theorem applied to the concrete crashed
RUNNING record. -/
theorem C5_recovery_witness :
    (recoverRunningLoader c5Rec 9).heartbeatAt = none
      ∧ (recoverRunningForge c5Rec 9).heartbeatAt = some 5 := by
  have h := (C5_recovery c5Rec 9).1 (by rfl)
  refine ⟨h.2.2.2.2.1, ?_⟩
  have h2 := h.2.2.2.2.2.2.2.2.2.2.2.2.1
  rw [h2]; rfl

/-! ## Per-job queue manager model
    (src/internal/spadeloader/queue/logs.go: Submit / process /
    progressUpdater / emitEventLocked / SubscribeEvents /
    eventsSinceLocked.)

    All record mutation and event emission happens under the manager's
    single mutex, so the per-job evolution is a sequence of atomic
    operations.  The straight-line worker body `process(id)` is split
    at its lock boundary into `processStart` (first critical section)
    and `processFinish` (second critical section); the ghost flag
    `processing` records that the single worker is between the two —
    this is the only program-counter state the embedding needs, and it
    is sound because exactly one worker goroutine runs jobs.

    `emitted` is a ghost list of every event ever emitted for the job,
    in emission order; `events` is the stored ring (`m.events[id]`). -/

structure Event where
  seq : Nat
  jobID : String
  typ : String
  state : JState
  step : String
  message : String
  error : String
  heartbeatAt : Option Nat
  exitCode : Option Int
  atTime : Nat
deriving DecidableEq, Repr

/-- Event.Terminal. -/
def Event.terminal (e : Event) : Bool :=
  e.state = .succeeded || e.state = .failed

structure JobM where
  record : Record
  events : List Event
  emitted : List Event
  nextSeq : Nat
  processing : Bool
deriving DecidableEq, Repr

def maxEventsPerJob : Nat := 512

/-- The event snapshot built inside Manager.emitEventLocked from the
current record. -/
def snapshotEvent (s : JobM) (etype : String) (now : Nat) : Event :=
  { seq := s.nextSeq + 1
    jobID := s.record.id
    typ := etype
    state := s.record.state
    step := s.record.currentStep
    message := s.record.message
    error := s.record.error
    heartbeatAt := s.record.heartbeatAt
    exitCode := s.record.exitCode
    atTime := now }

/-- Manager.emitEventLocked: allocate the next per-job sequence
number, snapshot the record into an event, append it to the ring and
trim the ring to the newest `maxEventsPerJob` entries, then publish to
subscribers (the subscriber channels are modelled separately, for
claim C2). -/
def emitEventLocked (s : JobM) (etype : String) (now : Nat) : JobM :=
  let ev := snapshotEvent s etype now
  let list := s.events ++ [ev]
  let list :=
    if maxEventsPerJob < list.length then list.drop (list.length - maxEventsPerJob)
    else list
  { s with events := list, emitted := s.emitted ++ [ev], nextSeq := s.nextSeq + 1 }

/-- Manager.Submit (the part after the id/layout/bitstream plumbing):
build a fresh QUEUED record, insert it, emit "queued". -/
def submitJob (id board design bitname sha : String) (size : Int) (now : Nat) : JobM :=
  let rec0 := Record.new id board design bitname sha size now
  emitEventLocked
    { record := rec0, events := [], emitted := [], nextSeq := 0, processing := false }
    "queued" now

/-- The first critical section of Manager.process: re-check QUEUED,
transition to RUNNING with step "flash", emit "running". -/
def processStart (s : JobM) (now : Nat) : JobM :=
  if s.record.state ≠ .queued then s
  else
    match s.record.transition .running now "flash started" with
    | (_, some _) => s
    | (r, none) =>
      let r := { r with currentStep := "flash" }
      emitEventLocked { s with record := r, processing := true } "running" now

/-- Manager.progressUpdater's closure body: ignored unless the record
is still RUNNING; a zero heartbeat timestamp falls back to now; step
and message only overwrite when non-empty; emits "progress". -/
def progressUpdate (s : JobM) (step msg : String) (hb now : Nat) : JobM :=
  if s.record.state ≠ .running then s
  else
    let n := if hb = 0 then now else hb
    let r := { s.record with updatedAt := n, heartbeatAt := some n }
    let r := if step ≠ "" then { r with currentStep := step } else r
    let r := if msg ≠ "" then { r with message := msg } else r
    emitEventLocked { s with record := r } "progress" now

/-- The second critical section of Manager.process: apply the terminal
transition (with the code's defensive fallback when MarkFailed /
MarkSucceeded errors) and emit the terminal event. -/
def processFinish (s : JobM) (now : Nat) (resMsg : String) (resExit : Int)
    (flashErr : Option String) : JobM :=
  if ¬ s.processing then s
  else
    match flashErr with
    | some e =>
      let (r1, markErr) := s.record.markFailed now resMsg (some e) resExit
      let r :=
        match markErr with
        | some _ =>
          { s.record with
              state := .failed, updatedAt := now, error := e, message := resMsg,
              exitCode := some resExit, finishedAt := some now }
        | none => r1
      let r := { r with currentStep := "failed" }
      emitEventLocked { s with record := r, processing := false } "failed" now
    | none =>
      let (r1, markErr) := s.record.markSucceeded now resMsg resExit
      let r :=
        match markErr with
        | some _ =>
          { s.record with
              state := .succeeded, updatedAt := now, message := resMsg, error := "",
              exitCode := some resExit, finishedAt := some now }
        | none => r1
      let r := { r with currentStep := "done" }
      emitEventLocked { s with record := r, processing := false } "succeeded" now

inductive MOp where
  | start (now : Nat)
  | progress (step msg : String) (hb now : Nat)
  | finish (now : Nat) (resMsg : String) (resExit : Int) (flashErr : Option String)
deriving DecidableEq, Repr

def applyOp (s : JobM) : MOp → JobM
  | .start now => processStart s now
  | .progress step msg hb now => progressUpdate s step msg hb now
  | .finish now m e err => processFinish s now m e err

def runOps (s : JobM) (ops : List MOp) : JobM := ops.foldl applyOp s

/-- Manager.eventsSinceLocked: the stored events with Seq > since.
(`since` is an int64 in Go; non-positive values behave like 0 since
every stored seq is ≥ 1, so Nat suffices.) -/
def eventsSinceLocked (s : JobM) (since : Nat) : List Event :=
  if s.events.length = 0 then []
  else s.events.filter fun ev => since < ev.seq

/-- Manager.SubscribeEvents for a known job: the backlog plus whether
a live channel is handed out (false ⇔ the job was terminal, matching
the nil channel return). -/
def subscribeEvents (s : JobM) (since : Nat) : List Event × Bool :=
  let backlog := eventsSinceLocked s since
  if s.record.terminal then (backlog, false) else (backlog, true)

/-! ### Invariants of the per-job manager state -/

lemma emit_emitted (s : JobM) (etype : String) (now : Nat) :
    (emitEventLocked s etype now).emitted = s.emitted ++ [snapshotEvent s etype now] := rfl

lemma emit_nextSeq (s : JobM) (etype : String) (now : Nat) :
    (emitEventLocked s etype now).nextSeq = s.nextSeq + 1 := rfl

lemma emit_events (s : JobM) (etype : String) (now : Nat) :
    (emitEventLocked s etype now).events =
      (if maxEventsPerJob < (s.events ++ [snapshotEvent s etype now]).length
        then (s.events ++ [snapshotEvent s etype now]).drop
          ((s.events ++ [snapshotEvent s etype now]).length - maxEventsPerJob)
        else s.events ++ [snapshotEvent s etype now]) := rfl

lemma emit_record (s : JobM) (etype : String) (now : Nat) :
    (emitEventLocked s etype now).record = s.record := rfl

lemma emit_processing (s : JobM) (etype : String) (now : Nat) :
    (emitEventLocked s etype now).processing = s.processing := rfl

/-- The inductive invariant of a per-job manager slice: emitted
sequence numbers are exactly 1..n in order, the stored ring is the
newest-512 suffix of the emission history, an in-flight worker implies
a RUNNING record, at least the "queued" event has been emitted, the
last emitted event is terminal exactly when the record is, and no
event before the last is terminal. -/
structure JobInv (s : JobM) : Prop where
  seqs : s.emitted.map Event.seq = List.range' 1 s.emitted.length
  next_eq : s.nextSeq = s.emitted.length
  ring_eq : s.events = s.emitted.drop (s.emitted.length - maxEventsPerJob)
  proc_run : s.processing = true → s.record.state = .running
  nonempty : s.emitted ≠ []
  last_term : ∀ ev, s.emitted.getLast? = some ev → ev.terminal = s.record.terminal
  mid_nonterm : ∀ ev ∈ s.emitted.dropLast, ev.terminal = false

lemma all_nonterm_of_inv {s : JobM} (h : JobInv s)
    (ht : s.record.terminal = false) : ∀ ev ∈ s.emitted, ev.terminal = false := by
  intro ev hev
  have hne := h.nonempty
  have hsplit : s.emitted.dropLast ++ [s.emitted.getLast hne] = s.emitted :=
    List.dropLast_concat_getLast hne
  rw [← hsplit] at hev
  rcases List.mem_append.mp hev with hmem | hmem
  · exact h.mid_nonterm ev hmem
  · have hev' : ev = s.emitted.getLast hne := List.mem_singleton.mp hmem
    have hlast : s.emitted.getLast? = some (s.emitted.getLast hne) :=
      List.getLast?_eq_getLast s.emitted hne
    rw [hev', h.last_term _ hlast, ht]

lemma trimRing_eq (l : List Event) :
    (if maxEventsPerJob < l.length then l.drop (l.length - maxEventsPerJob) else l)
      = l.drop (l.length - maxEventsPerJob) := by
  split
  · rfl
  · have h0 : l.length - maxEventsPerJob = 0 := by omega
    rw [h0, List.drop_zero]

/-- Emitting one event from a state whose bookkeeping fields satisfy
the invariant equations (the record and processing flag may have just
been rewritten by the caller) re-establishes the full invariant. -/
lemma emit_establishes (s : JobM) (etype : String) (now : Nat)
    (hseqs : s.emitted.map Event.seq = List.range' 1 s.emitted.length)
    (hnext : s.nextSeq = s.emitted.length)
    (hring : s.events = s.emitted.drop (s.emitted.length - maxEventsPerJob))
    (hall : ∀ ev ∈ s.emitted, ev.terminal = false)
    (hp : s.processing = true → s.record.state = .running) :
    JobInv (emitEventLocked s etype now) := by
  have hmax1 : (1 : Nat) ≤ maxEventsPerJob := by decide
  set L := s.emitted.length with hL
  have hlen : s.events.length = L - (L - maxEventsPerJob) := by
    rw [hring, List.length_drop]
  refine ⟨?_, ?_, ?_, ?_, ?_, ?_, ?_⟩
  · rw [emit_emitted, List.map_append, hseqs, List.length_append]
    simp only [List.map_cons, List.map_nil, List.length_cons, List.length_nil,
      Nat.zero_add]
    rw [List.range'_concat]
    have h5 : 1 + 1 * L = L + 1 := by omega
    rw [h5]
    simp [snapshotEvent, hnext]
  · rw [emit_nextSeq, emit_emitted, List.length_append, hnext]
    simp
  · rw [emit_events, emit_emitted, trimRing_eq]
    rw [List.length_append, List.length_append]
    simp only [List.length_cons, List.length_nil, Nat.zero_add]
    by_cases hcase : L < maxEventsPerJob
    · have h1 : L - maxEventsPerJob = 0 := by omega
      have hev : s.events = s.emitted := by rw [hring, h1, List.drop_zero]
      rw [hev, ← hL]
    · have hm : maxEventsPerJob ≤ L := le_of_not_lt hcase
      have h1 : s.events.length = maxEventsPerJob := by rw [hlen]; omega
      rw [← hL, h1]
      have h2 : maxEventsPerJob + 1 - maxEventsPerJob = 1 := by omega
      rw [h2]
      have h3 : (1 : Nat) ≤ s.events.length := by omega
      rw [List.drop_append_of_le_length h3, hring, List.drop_drop]
      rw [List.drop_append_of_le_length (by omega)]
      congr 2
      omega
  · rw [emit_processing, emit_record]
    exact hp
  · rw [emit_emitted]
    exact List.append_ne_nil_of_right_ne_nil _ (by simp)
  · intro ev hev
    rw [emit_emitted, List.getLast?_concat] at hev
    cases hev
    rw [emit_record]
    simp [snapshotEvent, Event.terminal, Record.terminal]
  · intro ev hev
    rw [emit_emitted, List.dropLast_concat] at hev
    exact hall ev hev

lemma processStart_inv (s : JobM) (now : Nat) (h : JobInv s) :
    JobInv (processStart s now) := by
  rw [processStart]
  by_cases hq : s.record.state = .queued
  · rw [if_neg (by simp [hq])]
    have hterm : s.record.terminal = false := by
      simp [Record.terminal, hq]
    simp only [Record.transition, hq, isValidTransition]
    simp
    refine emit_establishes _ _ _ h.seqs h.next_eq h.ring_eq ?_ ?_
    · intro ev hev
      exact all_nonterm_of_inv h hterm ev hev
    · intro _
      rfl
  · rw [if_pos (by simp [hq])]
    exact h

lemma progressUpdate_inv (s : JobM) (step msg : String) (hb now : Nat)
    (h : JobInv s) : JobInv (progressUpdate s step msg hb now) := by
  rw [progressUpdate]
  by_cases hr : s.record.state = .running
  · rw [if_neg (by simp [hr])]
    have hterm : s.record.terminal = false := by
      simp [Record.terminal, hr]
    refine emit_establishes _ _ _ h.seqs h.next_eq h.ring_eq ?_ ?_
    · intro ev hev
      exact all_nonterm_of_inv h hterm ev hev
    · intro _
      by_cases hstep : step ≠ ""
        <;> by_cases hmsg : msg ≠ ""
        <;> simp [hstep, hmsg, hr]
  · rw [if_pos (by simp [hr])]
    exact h

lemma processFinish_inv (s : JobM) (now : Nat) (resMsg : String) (resExit : Int)
    (flashErr : Option String) (h : JobInv s) :
    JobInv (processFinish s now resMsg resExit flashErr) := by
  rw [processFinish.eq_def]
  by_cases hproc : s.processing = true
  · rw [if_neg (by simp [hproc])]
    have hr : s.record.state = .running := h.proc_run hproc
    have hterm : s.record.terminal = false := by
      simp [Record.terminal, hr]
    cases flashErr with
    | some e =>
      simp only [Record.markFailed, Record.markFailedWith, Record.transition,
        hr, isValidTransition]
      simp
      refine emit_establishes _ _ _ h.seqs h.next_eq h.ring_eq ?_ ?_
      · intro ev hev
        exact all_nonterm_of_inv h hterm ev hev
      · intro hfalse
        cases hfalse
    | none =>
      simp only [Record.markSucceeded, Record.transition, hr, isValidTransition]
      simp
      refine emit_establishes _ _ _ h.seqs h.next_eq h.ring_eq ?_ ?_
      · intro ev hev
        exact all_nonterm_of_inv h hterm ev hev
      · intro hfalse
        cases hfalse
  · rw [if_pos (by simp [hproc])]
    exact h

lemma applyOp_inv (s : JobM) (op : MOp) (h : JobInv s) : JobInv (applyOp s op) := by
  cases op with
  | start now => exact processStart_inv s now h
  | progress step msg hb now => exact progressUpdate_inv s step msg hb now h
  | finish now m e err => exact processFinish_inv s now m e err h

lemma submitJob_inv (id board design bitname sha : String) (size : Int) (now : Nat) :
    JobInv (submitJob id board design bitname sha size now) := by
  rw [submitJob]
  refine emit_establishes _ _ _ rfl rfl rfl ?_ ?_
  · intro ev hev
    cases hev
  · intro hfalse
    cases hfalse

lemma runOps_inv (s : JobM) (ops : List MOp) (h : JobInv s) :
    JobInv (runOps s ops) := by
  induction ops generalizing s with
  | nil => exact h
  | cons op rest ih => exact ih (applyOp s op) (applyOp_inv s op h)

/-- Once the record is terminal, every further operation is a no-op:
start re-checks QUEUED, progress re-checks RUNNING, and the worker
that could finish the job has already left its critical section. -/
lemma terminal_frozen (s : JobM) (h : JobInv s)
    (ht : s.record.terminal = true) (op : MOp) : applyOp s op = s := by
  have hstate : s.record.state = .succeeded ∨ s.record.state = .failed := by
    rw [Record.terminal] at ht
    rcases Bool.or_eq_true_iff.mp ht with h1 | h1
    · exact Or.inl (by simpa using h1)
    · exact Or.inr (by simpa using h1)
  have hnq : s.record.state ≠ .queued := by
    rcases hstate with h1 | h1 <;> simp [h1]
  have hnr : s.record.state ≠ .running := by
    rcases hstate with h1 | h1 <;> simp [h1]
  have hnp : s.processing = false := by
    cases hp : s.processing with
    | false => rfl
    | true => exact absurd (h.proc_run hp) hnr
  cases op with
  | start now => rw [applyOp, processStart, if_pos (by simp [hnq])]
  | progress step msg hb now => rw [applyOp, progressUpdate, if_pos (by simp [hnr])]
  | finish now m e err => rw [applyOp, processFinish.eq_def, if_pos (by simp [hnp])]

/-! ## Claim C3 — event monotonicity -/

/-- C3: over every execution of a submitted job (any interleaving of
worker start/finish and progress callbacks, all serialized by the
manager's lock), the emitted sequence numbers are exactly 1, 2, …, n
(strictly increasing, starting at 1, no gaps — allocated from the
per-job `nextEventSeq` counter under the lock), every event before the
last is non-terminal, and once the record is terminal the last emitted
event is terminal and every further operation is a no-op, so the
final event emitted for the job is a terminal event. -/
theorem C3_event_monotonicity (id board design bitname sha : String) (size : Int)
    (now : Nat) (ops : List MOp) :
    (runOps (submitJob id board design bitname sha size now) ops).emitted.map Event.seq
        = List.range' 1
            (runOps (submitJob id board design bitname sha size now) ops).emitted.length
      ∧ (∀ ev ∈ (runOps (submitJob id board design bitname sha size now) ops).emitted.dropLast,
            ev.terminal = false)
      ∧ ((runOps (submitJob id board design bitname sha size now) ops).record.terminal = true →
            ∃ ev,
              (runOps (submitJob id board design bitname sha size now) ops).emitted.getLast?
                  = some ev
                ∧ ev.terminal = true)
      ∧ ((runOps (submitJob id board design bitname sha size now) ops).record.terminal = true →
            ∀ op, applyOp (runOps (submitJob id board design bitname sha size now) ops) op
                = runOps (submitJob id board design bitname sha size now) ops) := by
  have h := runOps_inv _ ops (submitJob_inv id board design bitname sha size now)
  refine ⟨h.seqs, h.mid_nonterm, fun ht => ?_, fun ht op => terminal_frozen _ h ht op⟩
  have hne := h.nonempty
  refine ⟨(runOps (submitJob id board design bitname sha size now) ops).emitted.getLast hne,
    List.getLast?_eq_getLast _ hne, ?_⟩
  rw [h.last_term _ (List.getLast?_eq_getLast _ hne), ht]

/-- C3 witness: a concrete happy-path run (queued → running →
progress → succeeded); the theorem's terminal hypotheses are
discharged by computation. -/
theorem C3_event_monotonicity_witness :
    (runOps (submitJob "ab12" "alchitry_au" "Blink" "d.bit" "sha" 8 1)
          [.start 2, .progress "flash" "writing" 3 3, .finish 4 "done" 0 none]).record.terminal
        = true
      ∧ ∃ ev,
          (runOps (submitJob "ab12" "alchitry_au" "Blink" "d.bit" "sha" 8 1)
              [.start 2, .progress "flash" "writing" 3 3,
                .finish 4 "done" 0 none]).emitted.getLast? = some ev
            ∧ ev.terminal = true := by
  have ht : (runOps (submitJob "ab12" "alchitry_au" "Blink" "d.bit" "sha" 8 1)
      [.start 2, .progress "flash" "writing" 3 3, .finish 4 "done" 0 none]).record.terminal
      = true := by decide
  exact ⟨ht,
    (C3_event_monotonicity "ab12" "alchitry_au" "Blink" "d.bit" "sha" 8 1
      [.start 2, .progress "flash" "writing" 3 3, .finish 4 "done" 0 none]).2.2.1 ht⟩

/-! ## Claim C4 — backlog correctness -/

lemma eventsSinceLocked_eq_filter (s : JobM) (since : Nat) :
    eventsSinceLocked s since = s.events.filter fun ev => since < ev.seq := by
  rw [eventsSinceLocked]
  split
  · rename_i hlen
    rw [List.length_eq_zero.mp hlen]
    rfl
  · rfl

lemma subscribe_backlog (s : JobM) (since : Nat) :
    (subscribeEvents s since).1 = s.events.filter fun ev => since < ev.seq := by
  rw [subscribeEvents]
  split <;> exact eventsSinceLocked_eq_filter s since

/-- C4: for a known job, subscription returns as backlog exactly the
stored (retained) events with seq > since, in strictly increasing seq
order; the stored ring never exceeds 512 events; the live channel is
nil exactly when the job is terminal at subscription time; and as long
as no event has been evicted (at most 512 emitted) the backlog is
exactly *all* events of the job with seq > since. -/
theorem C4_backlog (id board design bitname sha : String) (size : Int)
    (now : Nat) (ops : List MOp) (since : Nat)
    (hsince : since ≤ (runOps (submitJob id board design bitname sha size now) ops).nextSeq) :
    (subscribeEvents (runOps (submitJob id board design bitname sha size now) ops) since).1
        = (runOps (submitJob id board design bitname sha size now) ops).events.filter
            (fun ev => since < ev.seq)
      ∧ (((subscribeEvents (runOps (submitJob id board design bitname sha size now) ops)
            since).1.map Event.seq).Pairwise (· < ·))
      ∧ (∀ ev,
          ev ∈ (subscribeEvents (runOps (submitJob id board design bitname sha size now) ops)
              since).1
            ↔ ev ∈ (runOps (submitJob id board design bitname sha size now) ops).events
                ∧ since < ev.seq)
      ∧ (runOps (submitJob id board design bitname sha size now) ops).events.length
          ≤ maxEventsPerJob
      ∧ ((subscribeEvents (runOps (submitJob id board design bitname sha size now) ops)
            since).2 = false
          ↔ (runOps (submitJob id board design bitname sha size now) ops).record.terminal
              = true)
      ∧ ((runOps (submitJob id board design bitname sha size now) ops).emitted.length
            ≤ maxEventsPerJob →
          ∀ ev,
            ev ∈ (subscribeEvents (runOps (submitJob id board design bitname sha size now)
                ops) since).1
              ↔ ev ∈ (runOps (submitJob id board design bitname sha size now) ops).emitted
                  ∧ since < ev.seq) := by
  have h := runOps_inv _ ops (submitJob_inv id board design bitname sha size now)
  set s := runOps (submitJob id board design bitname sha size now) ops with hs
  have hb := subscribe_backlog s since
  have hpair : ((s.events.filter fun ev => since < ev.seq).map Event.seq).Pairwise (· < ·) := by
    have h1 : (s.events.filter fun ev => since < ev.seq).Sublist s.events :=
      List.filter_sublist s.events
    have h2 : s.events.Sublist s.emitted := by
      rw [h.ring_eq]
      exact List.drop_sublist _ _
    have h3 : ((s.events.filter fun ev => since < ev.seq).map Event.seq).Sublist
        (s.emitted.map Event.seq) := (h1.trans h2).map Event.seq
    have h4 : (s.emitted.map Event.seq).Pairwise (· < ·) := by
      rw [h.seqs]
      exact List.pairwise_lt_range' 1 s.emitted.length
    exact h4.sublist h3
  refine ⟨hb, by rw [hb]; exact hpair, ?_, ?_, ?_, ?_⟩
  · intro ev
    rw [hb, List.mem_filter]
    simp
  · rw [h.ring_eq, List.length_drop]
    omega
  · rw [subscribeEvents]
    cases hterm : s.record.terminal <;> simp [hterm]
  · intro hlen ev
    have hring : s.events = s.emitted := by
      rw [h.ring_eq]
      have h0 : s.emitted.length - maxEventsPerJob = 0 := by omega
      rw [h0, List.drop_zero]
    rw [hb, hring, List.mem_filter]
    simp

/-- C4 witness: the theorem applied to a concrete finished run with
since = 1 — the backlog is the events with seq 2 and 3 and the live
channel is nil (the job is terminal). -/
theorem C4_backlog_witness :
    (subscribeEvents (runOps (submitJob "ab12" "b" "d" "x.bit" "s" 8 1)
            [.start 2, .finish 3 "done" 0 none]) 1).1.map Event.seq = [2, 3]
      ∧ ((subscribeEvents (runOps (submitJob "ab12" "b" "d" "x.bit" "s" 8 1)
            [.start 2, .finish 3 "done" 0 none]) 1).1.map Event.seq).Pairwise (· < ·) := by
  have h := C4_backlog "ab12" "b" "d" "x.bit" "s" 8 1
    [.start 2, .finish 3 "done" 0 none] 1 (by decide)
  exact ⟨by decide, h.2.1⟩

/-! ## Claim C2 — terminal event delivery to subscribers
    Two delivery routines are cited:
    * src/internal/spadeloader/queue/logs.go 445–466 `publishEvent`
      (non-blocking send; for a terminal event, evict one queued
      element and retry),
    * src/unnamed/part_015 `Manager.emitEventLocked` subscriber loop
      (plain non-blocking send for every event, terminal included).
    A subscriber channel of capacity `cap` is a FIFO list of queued
    events; a Go `select` send with `default` appends when the channel
    has room, a `select` receive with `default` pops the front when
    the channel is non-empty. -/

/-- publishEvent from logs.go. -/
def publishEvent (cap : Nat) (ch : List Event) (ev : Event) : List Event :=
  if ch.length < cap then ch ++ [ev]
  else if ev.terminal = false then ch
  else
    let ch2 := ch.drop 1
    if ch2.length < cap then ch2 ++ [ev] else ch2

/-- The subscriber send in part_015's emitEventLocked: a single
non-blocking send, no eviction, no retry. -/
def sendNonBlocking (cap : Nat) (ch : List Event) (ev : Event) : List Event :=
  if ch.length < cap then ch ++ [ev] else ch

/-- A progress event and a terminal (succeeded) event for the
counterexample channel. -/
def c2Progress : Event :=
  { seq := 1, jobID := "j", typ := "progress", state := .running, step := "flash",
    message := "", error := "", heartbeatAt := some 2, exitCode := none, atTime := 2 }

def c2Done : Event :=
  { seq := 130, jobID := "j", typ := "succeeded", state := .succeeded, step := "done",
    message := "ok", error := "", heartbeatAt := some 3, exitCode := some 0, atTime := 3 }

/-- C2 counterexample: in the part_015 manager the subscriber channel
(capacity 128) is sent to non-blockingly for every event; with the
channel full of queued progress events, the terminal event is dropped
— nothing is evicted and no retry happens, refuting "if the bounded
channel is full, one queued element is evicted and the send is
retried" for that cited emitter. -/
theorem C2_counterexample :
    c2Done.terminal = true
      ∧ sendNonBlocking 128 (List.replicate 128 c2Progress) c2Done
          = List.replicate 128 c2Progress
      ∧ c2Done ∉ sendNonBlocking 128 (List.replicate 128 c2Progress) c2Done := by
  refine ⟨rfl, ?_, ?_⟩
  · rw [sendNonBlocking, if_neg (by simp)]
  · rw [sendNonBlocking, if_neg (by simp)]
    intro hmem
    have := List.eq_of_mem_replicate hmem
    cases this

/-- C2 (amended): in the spadeloader queue's publishEvent a terminal
event is always delivered — on a full channel one queued element is
evicted from the front and the send retried, and the terminal event
ends up last in the channel; non-terminal events are delivered only if
there is room; the channel stays within its capacity.  The part_015
manager instead drops any event, terminal included, when the channel
is full. -/
theorem C2_terminal_delivery (cap : Nat) (ch : List Event) (ev : Event)
    (hcap : 1 ≤ cap) (hlen : ch.length ≤ cap) :
    (ev.terminal = true →
        ev ∈ publishEvent cap ch ev
          ∧ (publishEvent cap ch ev).getLast? = some ev)
      ∧ (ev.terminal = false →
          publishEvent cap ch ev = ch ++ [ev] ∨ publishEvent cap ch ev = ch)
      ∧ (publishEvent cap ch ev).length ≤ cap
      ∧ (ch.length = cap → sendNonBlocking cap ch ev = ch) := by
  refine ⟨?_, ?_, ?_, ?_⟩
  · intro hterm
    rw [publishEvent]
    by_cases hroom : ch.length < cap
    · rw [if_pos hroom]
      exact ⟨List.mem_append_right _ (by simp), List.getLast?_concat _⟩
    · rw [if_neg hroom, hterm]
      simp only [Bool.true_eq_false, if_false]
      have hfull : ch.length = cap := by omega
      have hdrop : (ch.drop 1).length < cap := by
        rw [List.length_drop]
        omega
      rw [if_pos hdrop]
      exact ⟨List.mem_append_right _ (by simp), List.getLast?_concat _⟩
  · intro hterm
    rw [publishEvent]
    by_cases hroom : ch.length < cap
    · rw [if_pos hroom]
      exact Or.inl rfl
    · rw [if_neg hroom, hterm]
      exact Or.inr (if_pos rfl)
  · rw [publishEvent]
    by_cases hroom : ch.length < cap
    · rw [if_pos hroom]
      rw [List.length_append]
      simp only [List.length_cons, List.length_nil]
      omega
    · rw [if_neg hroom]
      by_cases hterm : ev.terminal = false
      · rw [if_pos hterm]
        exact hlen
      · rw [if_neg hterm]
        have hd : (ch.drop 1).length = ch.length - 1 := List.length_drop 1 ch
        by_cases h2 : (ch.drop 1).length < cap
        · rw [if_pos h2]
          rw [List.length_append]
          simp only [List.length_cons, List.length_nil]
          omega
        · rw [if_neg h2]
          omega
  · intro hfull
    rw [sendNonBlocking, if_neg (by omega)]

/-- C2 witness: the amended theorem applied to a concrete full
channel of capacity 1. -/
theorem C2_terminal_delivery_witness :
    c2Done ∈ publishEvent 1 [c2Progress] c2Done
      ∧ (publishEvent 1 [c2Progress] c2Done).getLast? = some c2Done := by
  exact (C2_terminal_delivery 1 [c2Progress] c2Done (by decide)
    (by decide)).1 rfl

/-! ## Claim C8 — board-allowlist rejection
    (src/internal/spadeloader/server/server.go handleSubmitJob and
    src/unnamed/part_018 Config.BoardAllowed.)  Go's
    strings.TrimSpace / strings.EqualFold are modelled for the ASCII
    board names the boardPattern admits. -/

/-- An ASCII whitespace character (the cut set of strings.TrimSpace
for ASCII input). -/
def isSpaceChar (c : Char) : Bool :=
  c = ' ' || c = '\t' || c = '\n' || c = '\r'

/-- strings.TrimSpace for ASCII input. -/
def trimSpace (s : String) : String :=
  String.mk (((s.toList.dropWhile isSpaceChar).reverse.dropWhile isSpaceChar).reverse)

/-- One character of the board pattern `[A-Za-z0-9._-]`. -/
def boardChar (c : Char) : Bool :=
  ('A' ≤ c && c ≤ 'Z') || ('a' ≤ c && c ≤ 'z') || ('0' ≤ c && c ≤ '9')
    || c = '.' || c = '_' || c = '-'

/-- validateBoard: the board matches `^[A-Za-z0-9._-]{1,64}$`. -/
def validBoard (board : String) : Bool :=
  1 ≤ board.toList.length && board.toList.length ≤ 64 && board.toList.all boardChar

def asciiLower (c : Char) : Char :=
  if 'A' ≤ c && c ≤ 'Z' then Char.ofNat (c.toNat + 32) else c

/-- strings.EqualFold restricted to ASCII case folding. -/
def equalFold (a b : String) : Bool :=
  a.toList.map asciiLower = b.toList.map asciiLower

/-- Config.BoardAllowlistEnabled. -/
def boardAllowlistEnabled (allowedBoards : List String) : Bool :=
  0 < allowedBoards.length

/-- Config.BoardAllowed from part_018. -/
def boardAllowed (allowedBoards : List String) (board : String) : Bool :=
  if ¬ boardAllowlistEnabled allowedBoards then true
  else
    let target := trimSpace board
    allowedBoards.any fun allowed => equalFold (trimSpace allowed) target

/-- filepath.Ext: the suffix starting at the final dot. -/
def fileExt (n : String) : String :=
  let rev := n.toList.reverse
  let pre := rev.takeWhile (· ≠ '.')
  if pre.length = rev.length then "" else String.mk ('.' :: pre.reverse)

def asciiToLower (s : String) : String :=
  String.mk (s.toList.map asciiLower)

def validDesignName (d : String) : Bool :=
  1 ≤ (trimSpace d).toList.length && (trimSpace d).toList.length ≤ 128

def validBitstreamName (n : String) : Bool :=
  ¬ (trimSpace n = "") && asciiToLower (fileExt n) = ".bit"

/-- The submission request, after the HTTP layer: whether the
multipart body exceeded MaxUploadBytes, the form fields, and the
bitstream file's name when the field is present. -/
structure SubmitReq where
  tooLarge : Bool
  board : String
  designName : String
  bitstreamName : Option String
deriving DecidableEq, Repr

structure SubmitOutcome where
  status : Nat
  jobCreated : Bool
deriving DecidableEq, Repr

/-- API.handleSubmitJob's validation pipeline: 413 on an oversized
body, 400 on an invalid or disallowed board, invalid design name,
missing bitstream field or bad bitstream filename; otherwise the job
is submitted and 202 returned. -/
def handleSubmitJob (allowedBoards : List String) (req : SubmitReq) : SubmitOutcome :=
  if req.tooLarge then ⟨413, false⟩
  else
    let board := trimSpace req.board
    let designName := trimSpace req.designName
    if ¬ validBoard board then ⟨400, false⟩
    else if ¬ boardAllowed allowedBoards board then ⟨400, false⟩
    else if ¬ validDesignName designName then ⟨400, false⟩
    else
      match req.bitstreamName with
      | none => ⟨400, false⟩
      | some name =>
        if ¬ validBitstreamName (trimSpace name) then ⟨400, false⟩
        else ⟨202, true⟩

/-- C8 counterexample: with the board allowlist ["alchitry_au"], a
well-formed submission for "other_board" is rejected with status 400
(Bad Request), not 403 — exactly what the repo's own
TestBoardAllowlistGuard expects.  No job is created. -/
theorem C8_counterexample :
    handleSubmitJob ["alchitry_au"]
        ⟨false, "other_board", "Blink", some "design.bit"⟩
      = ⟨400, false⟩
      ∧ (handleSubmitJob ["alchitry_au"]
          ⟨false, "other_board", "Blink", some "design.bit"⟩).status ≠ 403 := by
  refine ⟨by decide, by decide⟩

/-- C8 (amended): a submission whose board is blocked by the server's
board-allowlist is rejected with status 400 and no job is created. -/
theorem C8_boardAllowlist (allowedBoards : List String) (req : SubmitReq)
    (hsize : req.tooLarge = false)
    (hvalid : validBoard (trimSpace req.board) = true)
    (hblocked : boardAllowed allowedBoards (trimSpace req.board) = false) :
    handleSubmitJob allowedBoards req = ⟨400, false⟩ := by
  rw [handleSubmitJob, if_neg (by rw [hsize]; exact Bool.false_ne_true)]
  rw [if_neg (by rw [hvalid]; simp), if_pos (by rw [hblocked]; simp)]

/-- C8 witness: the amended theorem applied to the concrete blocked
request. -/
theorem C8_boardAllowlist_witness :
    handleSubmitJob ["alchitry_au"]
        ⟨false, "other_board", "Blink", some "design.bit"⟩ = ⟨400, false⟩ :=
  C8_boardAllowlist ["alchitry_au"]
    ⟨false, "other_board", "Blink", some "design.bit"⟩
    rfl (by decide) (by decide)

/-! ## Claim C9 — diagnostics extraction
    (src/unnamed/part_010: BuildReport / parseLine /
    splitTrailingLocation / parseLocation / parseInt / firstToken /
    diagnosticKey, over the Diagnostic types of
    src/internal/job/diagnostics.go.)  Strings are processed as
    `List Char`; Go's byte-oriented helpers coincide with this for the
    ASCII log prefixes involved. -/

inductive Severity where
  | sevError
  | sevWarning
  | sevInfo
deriving DecidableEq, Repr

def Severity.str : Severity → String
  | .sevError => "ERROR"
  | .sevWarning => "WARNING"
  | .sevInfo => "INFO"

structure Diagnostic where
  severity : Severity
  tool : String := ""
  code : String := ""
  message : String := ""
  file : String := ""
  line : Nat := 0
  column : Nat := 0
  source : String := ""
  raw : String := ""
deriving DecidableEq, Repr

structure DiagnosticsReport where
  schema : Nat
  generatedAt : Nat
  errorCount : Nat := 0
  warningCount : Nat := 0
  infoCount : Nat := 0
  diagnostics : List Diagnostic := []
deriving DecidableEq, Repr

/-- strings.TrimSpace on characters. -/
def trimL (s : List Char) : List Char :=
  ((s.dropWhile isSpaceChar).reverse.dropWhile isSpaceChar).reverse

/-- strings.TrimRight(line, "\x5cr\x5cn"). -/
def trimRightCR (s : List Char) : List Char :=
  (s.reverse.dropWhile fun c => c = '\r' || c = '\n').reverse

/-- strings.Split on a single separator character. -/
def splitOnChar (c : Char) : List Char → List (List Char)
  | [] => [[]]
  | x :: xs =>
    let r := splitOnChar c xs
    if x = c then [] :: r
    else
      match r with
      | [] => [[x]]
      | h :: t => (x :: h) :: t

/-- strings.Index for a single character (none when absent). -/
def indexOfChar (c : Char) (s : List Char) : Option Nat :=
  s.findIdx? (· = c)

/-- strings.LastIndex(msg, " [") as an optional position. -/
def lastIndexSpaceBracket (s : List Char) : Option Nat :=
  ((List.range s.length).filter fun i => [' ', '['].isPrefixOf (s.drop i)).getLast?

/-- parseInt from part_010: digits only, no sign, empty rejected. -/
def parseIntGo (s : List Char) : Option Nat :=
  if s.isEmpty then none
  else if s.all (fun c => '0' ≤ c && c ≤ '9') then
    some (s.foldl (fun n c => n * 10 + (c.toNat - '0'.toNat)) 0)
  else none

/-- firstToken: the first whitespace-delimited field. -/
def firstToken (s : List Char) : List Char :=
  (s.dropWhile isSpaceChar).takeWhile fun c => ¬ isSpaceChar c

/-- parseLocation: split on ':', pull one or two trailing numeric
components, preserving colons inside the path. -/
def parseLocation (location : List Char) : List Char × Nat × Nat :=
  let parts := splitOnChar ':' location
  if parts.length < 2 then (location, 0, 0)
  else
    match parseIntGo (trimL (parts.getLast?.getD [])) with
    | none => (location, 0, 0)
    | some n =>
      if 3 ≤ parts.length then
        match parseIntGo (trimL (parts.dropLast.getLast?.getD [])) with
        | some ln => (List.intercalate [':'] (parts.dropLast.dropLast), ln, n)
        | none => (List.intercalate [':'] parts.dropLast, n, 0)
      else (List.intercalate [':'] parts.dropLast, n, 0)

/-- splitTrailingLocation: strip a trailing ` [path:line:col]` or
` [path:line]` bracket into file/line/column. -/
def splitTrailingLocation (msg0 : List Char) : String × String × Nat × Nat :=
  let msg := trimL msg0
  if msg.getLast? ≠ some ']' then (String.mk msg, "", 0, 0)
  else
    match lastIndexSpaceBracket msg with
    | none => (String.mk msg, "", 0, 0)
    | some start =>
      let location := trimL ((msg.drop (start + 2)).take (msg.length - 1 - (start + 2)))
      if location.isEmpty then (String.mk msg, "", 0, 0)
      else
        let (path, ln, col) := parseLocation location
        if path.isEmpty then (String.mk msg, "", 0, 0)
        else (String.mk (trimL (msg.take start)), String.mk path, ln, col)

/-- parseLine from part_010: severity prefix, optional `[CODE]`
bracket (code and first-token tool), then the message with an
optional trailing location bracket. -/
def parseLine (rawLine source : String) : Option Diagnostic :=
  let line := trimL rawLine.toList
  if line.isEmpty then none
  else
    let sevRest : Option (Severity × List Char) :=
      if ("ERROR:".toList).isPrefixOf line then
        some (.sevError, trimL (line.drop 6))
      else if ("CRITICAL WARNING:".toList).isPrefixOf line then
        some (.sevWarning, trimL (line.drop 17))
      else if ("WARNING:".toList).isPrefixOf line then
        some (.sevWarning, trimL (line.drop 8))
      else if ("INFO:".toList).isPrefixOf line then
        some (.sevInfo, trimL (line.drop 5))
      else none
    match sevRest with
    | none => none
    | some (sev, rest0) =>
      let codeToolRest : String × String × List Char :=
        if (['[']).isPrefixOf rest0 then
          match indexOfChar ']' rest0 with
          | some e =>
            if 1 < e then
              let fullCode := trimL ((rest0.drop 1).take (e - 1))
              (String.mk fullCode, String.mk (firstToken fullCode),
                trimL (rest0.drop (e + 1)))
            else ("", "", rest0)
          | none => ("", "", rest0)
        else ("", "", rest0)
      let (code, tool, rest) := codeToolRest
      let (msg, file, lineNo, col) := splitTrailingLocation rest
      let message := if msg = "" then String.mk rest else msg
      some { severity := sev, tool := tool, code := code, message := message,
             file := file, line := lineNo, column := col,
             source := source, raw := String.mk line }

/-- diagnosticKey: the dedup key
`severity|code|message|file|line|column`. -/
def diagnosticKey (d : Diagnostic) : String :=
  d.severity.str ++ "|" ++ d.code ++ "|" ++ d.message ++ "|" ++ d.file ++ "|"
    ++ toString d.line ++ "|" ++ toString d.column

structure ReportAcc where
  seen : List String
  diagnostics : List Diagnostic
  errorCount : Nat
  warningCount : Nat
  infoCount : Nat
deriving DecidableEq, Repr

/-- The dedup step of BuildReport's inner loop. -/
def addDiagnostic (acc : ReportAcc) (d : Diagnostic) : ReportAcc :=
  let key := diagnosticKey d
  if key ∈ acc.seen then acc
  else
    { seen := acc.seen ++ [key]
      diagnostics := acc.diagnostics ++ [d]
      errorCount := acc.errorCount + (if d.severity = .sevError then 1 else 0)
      warningCount := acc.warningCount + (if d.severity = .sevWarning then 1 else 0)
      infoCount := acc.infoCount + (if d.severity = .sevInfo then 1 else 0) }

/-- One source file pass: lines are the '\x5cn'-separated chunks with
trailing CR/LF removed (the bufio.ReadString loop of BuildReport). -/
def scanSource (acc : ReportAcc) (source : String) (raw : String) : ReportAcc :=
  ((splitOnChar '\n' raw.toList).map trimRightCR).foldl
    (fun acc line =>
      match parseLine (String.mk line) source with
      | none => acc
      | some d => addDiagnostic acc d) acc

/-- BuildReport: scan "vivado.log" then "console.log" (when present
in the logs map), deduplicating by diagnosticKey; `now` is the
time.Now() stamped into generated_at. -/
def BuildReport (logs : String → Option String) (now : Nat) : DiagnosticsReport :=
  let acc := (["vivado.log", "console.log"]).foldl
    (fun acc source =>
      match logs source with
      | none => acc
      | some raw => scanSource acc source raw)
    ⟨[], [], 0, 0, 0⟩
  { schema := 1, generatedAt := now,
    errorCount := acc.errorCount, warningCount := acc.warningCount,
    infoCount := acc.infoCount, diagnostics := acc.diagnostics }

def c9Logs : String → Option String := fun n =>
  if n = "console.log" then
    some "ERROR: [Synth 8-2716] syntax error near fake [hdl/spade.sv:1]\nERROR: [Synth 8-2716] syntax error near fake [hdl/spade.sv:1]\n"
  else none

/-- C9 counterexample: the report embeds generated_at = time.Now(),
so building the report twice (at instants 0 and 1) does not yield
bit-identical output — the two reports differ. -/
theorem C9_counterexample :
    BuildReport c9Logs 0 ≠ BuildReport c9Logs 1
      ∧ (BuildReport c9Logs 0).generatedAt = 0
      ∧ (BuildReport c9Logs 1).generatedAt = 1 := by
  refine ⟨fun h => ?_, rfl, rfl⟩
  have h0 : (BuildReport c9Logs 0).generatedAt = 0 := rfl
  have h1 : (BuildReport c9Logs 1).generatedAt = 1 := rfl
  rw [h, h1] at h0
  cases h0

lemma addDiagnostic_keys (acc : ReportAcc) (d : Diagnostic)
    (h1 : acc.seen = acc.diagnostics.map diagnosticKey)
    (h2 : acc.seen.Nodup) :
    (addDiagnostic acc d).seen = (addDiagnostic acc d).diagnostics.map diagnosticKey
      ∧ (addDiagnostic acc d).seen.Nodup := by
  rw [addDiagnostic]
  by_cases hmem : diagnosticKey d ∈ acc.seen
  · rw [if_pos hmem]
    exact ⟨h1, h2⟩
  · rw [if_neg hmem]
    refine ⟨?_, ?_⟩
    · show acc.seen ++ [diagnosticKey d]
        = (acc.diagnostics ++ [d]).map diagnosticKey
      rw [List.map_append, h1]
      rfl
    · show (acc.seen ++ [diagnosticKey d]).Nodup
      rw [List.nodup_append]
      exact ⟨h2, List.nodup_singleton _, by simpa using hmem⟩

lemma scanSource_keys (acc : ReportAcc) (source raw : String)
    (h1 : acc.seen = acc.diagnostics.map diagnosticKey)
    (h2 : acc.seen.Nodup) :
    (scanSource acc source raw).seen
        = (scanSource acc source raw).diagnostics.map diagnosticKey
      ∧ (scanSource acc source raw).seen.Nodup := by
  rw [scanSource]
  generalize ((splitOnChar '\n' raw.toList).map trimRightCR) = lines
  induction lines generalizing acc with
  | nil => exact ⟨h1, h2⟩
  | cons l rest ih =>
    rw [List.foldl_cons]
    cases hp : parseLine (String.mk l) source with
    | none =>
      simp only [hp]
      exact ih acc h1 h2
    | some d =>
      simp only [hp]
      obtain ⟨h1', h2'⟩ := addDiagnostic_keys acc d h1 h2
      exact ih _ h1' h2'

lemma buildReport_keys (logs : String → Option String) (now : Nat) :
    ((BuildReport logs now).diagnostics.map diagnosticKey).Nodup := by
  rw [BuildReport]
  have hstep : ∀ acc source,
      (acc.seen = acc.diagnostics.map diagnosticKey ∧ acc.seen.Nodup) →
      letI acc' := (match logs source with
        | none => acc
        | some raw => scanSource acc source raw)
      acc'.seen = acc'.diagnostics.map diagnosticKey ∧ acc'.seen.Nodup := by
    intro acc source h
    cases hl : logs source with
    | none => exact h
    | some raw => exact scanSource_keys acc source raw h.1 h.2
  have h0 : (⟨[], [], 0, 0, 0⟩ : ReportAcc).seen
      = (⟨[], [], 0, 0, 0⟩ : ReportAcc).diagnostics.map diagnosticKey
      ∧ (⟨[], [], 0, 0, 0⟩ : ReportAcc).seen.Nodup := ⟨rfl, List.nodup_nil⟩
  have h1 := hstep ⟨[], [], 0, 0, 0⟩ "vivado.log" h0
  have h2 := hstep _ "console.log" h1
  have := h2.1 ▸ h2.2
  exact this

/-- C9 (amended): the diagnostics content of the report — schema,
per-severity counts and the diagnostics list — is a pure function of
the log files and is identical across rebuilds; only `generated_at`
reflects the build instant.  Duplicate log lines (same severity, code,
message, file, line, column) collapse to a single diagnostic: the
report's diagnostics are pairwise distinct under diagnosticKey. -/
theorem C9_diagnostics (logs : String → Option String) (t1 t2 : Nat) :
    (BuildReport logs t1).diagnostics = (BuildReport logs t2).diagnostics
      ∧ (BuildReport logs t1).errorCount = (BuildReport logs t2).errorCount
      ∧ (BuildReport logs t1).warningCount = (BuildReport logs t2).warningCount
      ∧ (BuildReport logs t1).infoCount = (BuildReport logs t2).infoCount
      ∧ (BuildReport logs t1).schema = (BuildReport logs t2).schema
      ∧ (BuildReport logs t1).diagnostics.Pairwise
          (fun a b => diagnosticKey a ≠ diagnosticKey b) := by
  refine ⟨rfl, rfl, rfl, rfl, rfl, ?_⟩
  have h := buildReport_keys logs t1
  exact List.pairwise_map.mp h

/-- C9 witness: the duplicate ERROR line in the concrete logs
collapses to one diagnostic, and the pairwise-distinct-keys property
holds there. -/
theorem C9_diagnostics_witness :
    (BuildReport c9Logs 0).diagnostics.length = 1
      ∧ (BuildReport c9Logs 0).errorCount = 1
      ∧ (BuildReport c9Logs 0).diagnostics.Pairwise
          (fun a b => diagnosticKey a ≠ diagnosticKey b) := by
  exact ⟨by decide, by decide, (C9_diagnostics c9Logs 0 1).2.2.2.2.2⟩

/-! ## Claim C10 — history store Append
    (src/internal/spadeloader/history/history.go Append / List /
    persistLocked, and Config.HistoryPath from src/unnamed/part_018.)
    The persisted JSON payload is abridged to a representative string:
    the claim concerns the list discipline and the temp-file + rename
    write pattern, not the JSON text. -/

structure HistoryItem where
  jobID : String
  designName : String := ""
  board : String := ""
  bitstreamSHA256 : String := ""
  bitstreamSizeBytes : Int := 0
  submittedAt : Nat := 0
  finishedAt : Nat := 0
  state : JState := .succeeded
deriving DecidableEq, Repr

structure HistoryStore where
  path : String
  limit : Nat
  items : List HistoryItem
deriving DecidableEq, Repr

/-- history.New: a non-positive limit falls back to 100. -/
def HistoryStore.new (path : String) (limit : Int) : HistoryStore :=
  { path := path, limit := if limit ≤ 0 then 100 else limit.toNat, items := [] }

/-- Store.Append's in-memory step: prepend the new item, drop any
older entry with the same job_id, truncate to the limit. -/
def HistoryStore.append (s : HistoryStore) (item : HistoryItem) : HistoryStore :=
  let filtered := item :: s.items.filter fun existing => existing.jobID ≠ item.jobID
  let filtered := if s.limit < filtered.length then filtered.take s.limit else filtered
  { s with items := filtered }

/-- Store.List: newest-first read of at most `limit` items (caller
limit clamped to the store limit and the list length). -/
def HistoryStore.list (s : HistoryStore) (limit : Int) : List HistoryItem :=
  let l : Nat := if limit ≤ 0 then 20 else limit.toNat
  let l := if s.limit < l then s.limit else l
  let l := if s.items.length < l then s.items.length else l
  s.items.take l

/-- json.MarshalIndent of the history payload, abridged. -/
def marshalHistory (items : List HistoryItem) : String :=
  "\x7b\n  \"version\": 1,\n  \"items\": ["
    ++ String.intercalate ", " (items.map fun i => "\"" ++ i.jobID ++ "\"")
    ++ "]\n\x7d"

/-- Store.persistLocked: os.WriteFile to `path + ".tmp"` (truncate
then write) followed by os.Rename onto `path`. -/
def persistOps (s : HistoryStore) : List FsOp :=
  [.trunc (s.path ++ ".tmp"), .write (s.path ++ ".tmp") (marshalHistory s.items),
    .rename (s.path ++ ".tmp") s.path]

/-- Config.HistoryDir. -/
def historyDir (baseDir : String) : String := pathJoin baseDir "history"

/-- Config.HistoryPath from part_018: `history/recent_designs.json`. -/
def historyPath (baseDir : String) : String :=
  pathJoin (historyDir baseDir) "recent_designs.json"

/-- C10 counterexample: the history file is
`history/recent_designs.json`, not `history/recent.json` as the claim
names it. -/
theorem C10_counterexample :
    historyPath "/base" = "/base/history/recent_designs.json"
      ∧ historyPath "/base" ≠ "/base/history/recent.json" := by
  refine ⟨by decide, by decide⟩

lemma path_ne_tmp (p : String) : p ≠ p ++ ".tmp" := by
  intro h
  have hlen := congrArg String.length h
  rw [String.length_append] at hlen
  have h4 : ".tmp".length = 4 := rfl
  omega

/-- C10 (amended): after every Append the in-memory list holds at
most `limit` items, has pairwise-distinct job_ids (re-appending a
job_id replaces its older entry), and has the appended item first;
the list is persisted by writing `<path>.tmp` and renaming it over
the history path — `history/recent_designs.json` — so the history
file itself changes only at the final atomic rename, at which point
it holds exactly the serialized new list. -/
theorem C10_historyAppend (s : HistoryStore) (item : HistoryItem) (fs : Fs)
    (hnodup : s.items.Pairwise fun a b => a.jobID ≠ b.jobID)
    (hlim : 1 ≤ s.limit) :
    (s.append item).items.length ≤ s.limit
      ∧ (s.append item).items.head? = some item
      ∧ ((s.append item).items.Pairwise fun a b => a.jobID ≠ b.jobID)
      ∧ (∀ e ∈ (s.append item).items,
          e = item ∨ (e ∈ s.items ∧ e.jobID ≠ item.jobID))
      ∧ (∀ k, k < (persistOps (s.append item)).length →
          (fs.applyAll ((persistOps (s.append item)).take k)) s.path = fs s.path)
      ∧ (fs.applyAll (persistOps (s.append item))) s.path
          = some (marshalHistory (s.append item).items) := by
  have hpath : s.path ≠ s.path ++ ".tmp" := path_ne_tmp s.path
  have happend : (s.append item).path = s.path := rfl
  constructor
  · rw [HistoryStore.append]
    by_cases hlen : s.limit <
        (item :: s.items.filter fun e => e.jobID ≠ item.jobID).length
    · rw [if_pos hlen]
      show (List.take s.limit _).length ≤ s.limit
      rw [List.length_take]
      omega
    · rw [if_neg hlen]
      show (item :: s.items.filter fun e => e.jobID ≠ item.jobID).length ≤ s.limit
      omega
  constructor
  · rw [HistoryStore.append]
    by_cases hlen : s.limit <
        (item :: s.items.filter fun e => e.jobID ≠ item.jobID).length
    · rw [if_pos hlen]
      show ((item :: _).take s.limit).head? = some item
      obtain ⟨m, hm⟩ : ∃ m, s.limit = m + 1 := ⟨s.limit - 1, by omega⟩
      rw [hm, List.take_succ_cons]
      rfl
    · rw [if_neg hlen]
      rfl
  constructor
  · have hfull : ((item :: s.items.filter fun e => e.jobID ≠ item.jobID).Pairwise
        fun a b => a.jobID ≠ b.jobID) := by
      refine List.pairwise_cons.mpr ⟨?_, ?_⟩
      · intro b hb
        have := (List.mem_filter.mp hb).2
        intro heq
        rw [heq] at this
        simp at this
      · exact hnodup.sublist (List.filter_sublist _)
    rw [HistoryStore.append]
    by_cases hlen : s.limit <
        (item :: s.items.filter fun e => e.jobID ≠ item.jobID).length
    · rw [if_pos hlen]
      exact hfull.sublist (List.take_sublist _ _)
    · rw [if_neg hlen]
      exact hfull
  constructor
  · intro e he
    have hsub : e ∈ item :: s.items.filter fun ex => ex.jobID ≠ item.jobID := by
      rw [HistoryStore.append] at he
      by_cases hlen : s.limit <
          (item :: s.items.filter fun ex => ex.jobID ≠ item.jobID).length
      · rw [if_pos hlen] at he
        exact (List.take_sublist _ _).mem he
      · rw [if_neg hlen] at he
        exact he
    rcases List.mem_cons.mp hsub with h1 | h1
    · exact Or.inl h1
    · have := List.mem_filter.mp h1
      exact Or.inr ⟨this.1, by simpa using this.2⟩
  constructor
  · intro k hk
    rw [persistOps] at hk ⊢
    simp only [List.length_cons, List.length_nil] at hk
    interval_cases k
    · rfl
    · show (Fs.apply fs (.trunc ((s.append item).path ++ ".tmp"))) s.path = fs s.path
      rw [happend]
      simp [Fs.apply, hpath]
    · show (Fs.apply (Fs.apply fs (.trunc ((s.append item).path ++ ".tmp")))
          (.write ((s.append item).path ++ ".tmp")
            (marshalHistory (s.append item).items))) s.path = fs s.path
      rw [happend]
      simp [Fs.apply, hpath]
  · rw [persistOps]
    show (Fs.apply (Fs.apply (Fs.apply fs
          (.trunc ((s.append item).path ++ ".tmp")))
          (.write ((s.append item).path ++ ".tmp") (marshalHistory (s.append item).items)))
          (.rename ((s.append item).path ++ ".tmp") (s.append item).path)) s.path
        = some (marshalHistory (s.append item).items)
    rw [happend]
    simp [Fs.apply, hpath]

/-- C10 witness: the amended theorem applied to a concrete store
holding one older item, appending a newer one with the same job_id;
the new list replaces the older entry and stays within the limit. -/
theorem C10_historyAppend_witness :
    letI s : HistoryStore := ⟨historyPath "/base", 2, [⟨"j1", "Old", "b", "s", 1, 1, 2, .succeeded⟩]⟩
    letI item : HistoryItem := ⟨"j1", "New", "b", "s", 1, 3, 4, .succeeded⟩
    (s.append item).items.head? = some item
      ∧ (s.append item).items.length ≤ 2 := by
  have h := C10_historyAppend
    ⟨historyPath "/base", 2, [⟨"j1", "Old", "b", "s", 1, 1, 2, .succeeded⟩]⟩
    ⟨"j1", "New", "b", "s", 1, 3, 4, .succeeded⟩
    (fun _ => none)
    (by simp)
    (by decide)
  exact ⟨h.2.1, h.1⟩
